import Mathlib

/-!
# Verification of the MetricsAggregator pipeline

Shallow embedding of the missing-value-aware aggregation pipeline of the
model-format-comparison repository (`src/Scripts/main.py`,
`src/Scripts/report_generators.py`, `src/Scripts/chart_utils.py`,
`src/src/analyzer.py`), together with theorems settling the specified
properties of `selectModelsWithData`, `extractSeries`,
`computeCompressionRatio`, `computeTextureShare` and `shouldUseLogScale`.

Numeric metric values are embedded as `ℚ` (Python floats are used only for
division and order comparison here, both exact on the inputs at issue), a
Python `None` as `Option.none`, and code that can raise (`KeyError`,
`IndexError`, `NameError`) as `Option`-valued functions where `none` is an
uncaught exception.
-/

namespace ModelFormats

/-- The per-format metric fields that occur in the charts under scrutiny.
Source JSON keys: `size_before_mb`, `size_after_mb`, `texture_size_mb`,
`import_time_ms`, `load_time_ms`, `load_memory_mb`. -/
inductive MetricKey where
  | sizeBeforeMB
  | sizeAfterMB
  | textureSizeMB
  | importTimeMs
  | loadTimeMs
  | loadMemoryMB
deriving DecidableEq, Repr

/-- One format's metrics record (`models_data[name]['formats'][fmt]`).
Every field is optional: an absent JSON key and an explicit `null` both read
back as Python `None` through `.get(key, None)`, embedded as `none`. -/
structure FormatMetrics where
  size_before_mb : Option ℚ := none
  size_after_mb : Option ℚ := none
  texture_size_mb : Option ℚ := none
  import_time_ms : Option ℚ := none
  load_time_ms : Option ℚ := none
  load_memory_mb : Option ℚ := none
deriving DecidableEq, Repr

/-- Field lookup `fmt_data.get(key, None)`. -/
def FormatMetrics.get (m : FormatMetrics) : MetricKey → Option ℚ
  | MetricKey.sizeBeforeMB => m.size_before_mb
  | MetricKey.sizeAfterMB => m.size_after_mb
  | MetricKey.textureSizeMB => m.texture_size_mb
  | MetricKey.importTimeMs => m.import_time_ms
  | MetricKey.loadTimeMs => m.load_time_ms
  | MetricKey.loadMemoryMB => m.load_memory_mb

/-- One model's record (`models_data[name]`): `face_count_k`,
`texture_count`, and the `formats` sub-object. The `formats` mapping is an
insertion-ordered association list, as a Python `dict` is. -/
structure ModelRecord where
  face_count_k : ℚ
  texture_count : ℤ
  formats : List (String × FormatMetrics)
deriving DecidableEq, Repr

/-- The metrics table `models_data`: insertion-ordered mapping from model
name to record. -/
abbrev Table := List (String × ModelRecord)

/-- Python `models_data[name]` (first matching key; `none` = `KeyError`). -/
def lookupRec (t : Table) (name : String) : Option ModelRecord :=
  (t.find? (fun p => p.1 = name)).map Prod.snd

/-- Python `model_data['formats'][fmt]` combined with the membership test
`fmt in model_data['formats']`: `none` iff the format is absent. -/
def fmtLookup (fs : List (String × FormatMetrics)) (fmt : String) : Option FormatMetrics :=
  (fs.find? (fun p => p.1 = fmt)).map Prod.snd

/-- Python's `enumerate`, starting at `n`. -/
def pyEnum {α : Type} : ℕ → List α → List (ℕ × α)
  | _, [] => []
  | n, x :: xs => (n, x) :: pyEnum (n + 1) xs

/-! ## Derived-ratio computations

Embeds the inline ratio code of `create_compression_texture_ratio`
(`src/Scripts/main.py`, lines 244-258).  The Python guard is
`v not in [None, 0]`, i.e. the value must be neither `None` nor equal to
zero. -/

/-- `size_before not in [None, 0] and size_after not in [None, 0]` guard and
`(1 - size_after / size_before) * 100` from `src/Scripts/main.py` 248-252
(named after the spec operation; the source computes it inline into
`compression_ratio`). -/
def computeCompressionRatio (size_before size_after : Option ℚ) : Option ℚ :=
  match size_before, size_after with
  | some b, some a => if b ≠ 0 ∧ a ≠ 0 then some ((1 - a / b) * 100) else none
  | _, _ => none

/-- `size_before not in [None, 0] and texture_size not in [None, 0]` guard and
`(texture_size / size_before) * 100` from `src/Scripts/main.py` 254-258
(named after the spec operation; the source computes it inline into
`texture_ratio`). -/
def computeTextureShare (size_before texture_size : Option ℚ) : Option ℚ :=
  match size_before, texture_size with
  | some b, some ts => if b ≠ 0 ∧ ts ≠ 0 then some (ts / b * 100) else none
  | _, _ => none

/-- `ModelAnalyzer._calculate_compression_ratio` (`src/src/analyzer.py`
79-83): operates on plain floats, returns `0.0` when `original == 0`. -/
def calculate_compression_ratio (original compressed : ℚ) : ℚ :=
  if original = 0 then 0 else (original - compressed) / original * 100

/-- `ModelAnalyzer._calculate_texture_percentage` (`src/src/analyzer.py`
85-89): operates on plain floats, returns `0.0` when `original == 0`. -/
def calculate_texture_percentage (original texture : ℚ) : ℚ :=
  if original = 0 then 0 else texture / original * 100

/-! ## Log-scale heuristic

`should_use_log_scale` appears twice, identically: `src/Scripts/chart_utils.py`
48-54 and `src/Scripts/main.py` 907-914. -/

/-- `[v for v in values if v is not None and v > 0]`. -/
def filterPositive (values : List (Option ℚ)) : List ℚ :=
  values.filterMap (fun v => match v with
    | some x => if 0 < x then some x else none
    | none => none)

/-- `should_use_log_scale(values)`: filter out `None` and non-positive
values; `False` when fewer than two remain; otherwise `max/min >= 100`.
Python's `min`/`max` over a nonempty list are embedded as folds over its
head and tail. -/
def should_use_log_scale (values : List (Option ℚ)) : Bool :=
  match filterPositive values with
  | [] => false
  | [_] => false
  | v :: vs => decide (100 ≤ vs.foldl max v / vs.foldl min v)

/-! ## Model filtering

`filter_models_by_nonempty` appears twice, identically: `src/Scripts/main.py`
19-35 and `src/Scripts/report_generators.py` 6-18.  The embedding keeps the
source's fallibility: `models_data[model_name]` can raise `KeyError`,
`data_by_format[fmt][i]` can raise `IndexError`, and the returned
texture-count comprehension reads the leftover loop variable `model_data`,
which can raise `NameError`; all three surface as `none`. -/

/-- The inner `for fmt in data_by_format` loop computing `has_data` for row
`i` of the model whose record is `md`: `true` as soon as one series has
`fmt in model_data['formats']` and `data_by_format[fmt][i] is not None and
data_by_format[fmt][i] > 0`; `none` models the `IndexError` raised when a
consulted series is shorter than `i + 1`. -/
def rowHasData (md : ModelRecord) (i : ℕ) :
    List (String × List (Option ℚ)) → Option Bool
  | [] => some false
  | (fmt, series) :: rest =>
    if (fmtLookup md.formats fmt).isSome then
      match series.get? i with
      | none => none
      | some none => rowHasData md i rest
      | some (some v) => if 0 < v then some true else rowHasData md i rest
    else rowHasData md i rest

/-- The `for i, model_name in enumerate(models)` loop of
`filter_models_by_nonempty`: returns the accumulated `keep_indices` and the
final value of the loop variable `model_data` (`last`); `none` models an
uncaught `KeyError`/`IndexError`. -/
def keepLoop (models_data : Table) (dbf : List (String × List (Option ℚ))) :
    List (ℕ × String) → Option ModelRecord → Option (List ℕ × Option ModelRecord)
  | [], last => some ([], last)
  | (i, name) :: rest, _ =>
    match lookupRec models_data name with
    | none => none
    | some md =>
      match rowHasData md i dbf with
      | none => none
      | some b =>
        match keepLoop models_data dbf rest (some md) with
        | none => none
        | some (ks, last) => some (if b then i :: ks else ks, last)

/-- `[xs[i] for i in keep]`; `none` models `IndexError`. -/
def idxList {α : Type} : List ℕ → List α → Option (List α)
  | [], _ => some []
  | i :: is, xs =>
    match xs.get? i, idxList is xs with
    | some x, some ys => some (x :: ys)
    | _, _ => none

/-- `[model_data['texture_count'] for i, model_name in enumerate(models) if
i in keep_indices]`, where `model_data` is the leftover binding of the
preceding loop (`last`); `none` models the `NameError` raised when the
comprehension reads `model_data` though the loop never ran. -/
def textureListGo (keep : List ℕ) (last : Option ModelRecord) :
    List (ℕ × String) → Option (List ℤ)
  | [] => some []
  | (i, _) :: rest =>
    if i ∈ keep then
      match last with
      | none => none
      | some md => (textureListGo keep last rest).map (md.texture_count :: ·)
    else textureListGo keep last rest

/-- `filter_models_by_nonempty(models_data, data_by_format, models,
face_counts)` (`src/Scripts/main.py` 19-35, identically
`src/Scripts/report_generators.py` 6-18).  `data_by_format` is the
insertion-ordered mapping from format to its per-model series; the
association-list embedding also admits several series under one format name,
which the source's loop structure handles identically and which realizes the
spec's `(format, metricKey)` cross product. -/
def filter_models_by_nonempty (models_data : Table)
    (data_by_format : List (String × List (Option ℚ)))
    (models : List String) (face_counts : List ℚ) :
    Option (List String × List ℚ × List ℤ × List ℕ) :=
  match keepLoop models_data data_by_format (pyEnum 0 models) none with
  | none => none
  | some (keep, last) =>
    match idxList keep models, idxList keep face_counts,
        textureListGo keep last (pyEnum 0 models) with
    | some ms, some fcs, some ts => some (ms, fcs, ts, keep)
    | _, _, _ => none

/-! ## Series extraction and the composed selection operation -/

/-- The per-format series construction of `create_all_format_size_before`
(`src/Scripts/main.py` 808-814) generalized over the metric key: for each
model in order, the raw field value when the format is present (including an
explicit `0`), else `None`. -/
def buildSeries (table : Table) (fmt : String) (key : MetricKey) : List (Option ℚ) :=
  table.map (fun p => match fmtLookup p.2.formats fmt with
    | some m => m.get key
    | none => none)

/-- `extractSeries(table, orderedModelIds, format, metricKey)`: the series
construction of `create_all_format_size_before` (`src/Scripts/main.py`
808-814) read over an explicit ordered id list; a model id absent from the
table yields the missing sentinel. -/
def extractSeries (table : Table) (ids : List String) (fmt : String)
    (key : MetricKey) : List (Option ℚ) :=
  ids.map (fun name => match lookupRec table name with
    | some md => match fmtLookup md.formats fmt with
      | some m => m.get key
      | none => none
    | none => none)

/-- The `load_memory_mb` series construction of `create_gltf_glb_comparison`
(`src/Scripts/main.py` 361-373): `load_memory if load_memory not in
[None, 0] else None` — a measured `0` is replaced by the missing
sentinel. -/
def extractSeries_load_memory (table : Table) (ids : List String)
    (fmt : String) : List (Option ℚ) :=
  ids.map (fun name => match lookupRec table name with
    | some md => match fmtLookup md.formats fmt with
      | some m => match m.load_memory_mb with
        | some v => if v ≠ 0 then some v else none
        | none => none
      | none => none
    | none => none)

/-- One series per `(format, metricKey)` pair of the cross product, each
built as in `create_all_format_size_before`, keyed by the format name as
`filter_models_by_nonempty` expects. -/
def seriesTable (table : Table) (formats : List String)
    (keys : List MetricKey) : List (String × List (Option ℚ)) :=
  formats.flatMap (fun fmt => keys.map (fun k => (fmt, buildSeries table fmt k)))

/-- `selectModelsWithData(table, formats, metricKeys)`: the composed
source pipeline — build the per-`(format, metricKey)` series over the
table's own iteration order and pass the table's model names and
`face_count_k` column through `filter_models_by_nonempty`, returning its
three aligned output lists. -/
def selectModelsWithData (table : Table) (formats : List String)
    (keys : List MetricKey) : Option (List String × List ℚ × List ℤ) :=
  match filter_models_by_nonempty table (seriesTable table formats keys)
      (table.map Prod.fst) (table.map (fun p => p.2.face_count_k)) with
  | none => none
  | some (ms, fcs, ts, _) => some (ms, fcs, ts)

/-- The spec's keep-condition for one model record: some `(format,
metricKey)` pair of the cross product has the format present in the record's
`formats` and the field present, non-null and strictly positive. -/
def HasPositiveCombination (md : ModelRecord) (formats : List String)
    (keys : List MetricKey) : Prop :=
  ∃ fmt ∈ formats, ∃ k ∈ keys, ∃ m, fmtLookup md.formats fmt = some m ∧
    ∃ v, m.get k = some v ∧ 0 < v

/-- Boolean form of the keep-condition, used to state the closed-form
characterization of `selectModelsWithData`. -/
def hasPosB (md : ModelRecord) (formats : List String)
    (keys : List MetricKey) : Bool :=
  formats.any (fun fmt => match fmtLookup md.formats fmt with
    | some m => keys.any (fun k => match m.get k with
      | some v => decide (0 < v)
      | none => false)
    | none => false)

/-- The `texture_count` of the table's last record — the value the leaked
loop variable `model_data` holds when `filter_models_by_nonempty` builds its
third output list (junk value `0` for the empty table, where the list is
empty anyway). -/
def lastTexture (t : Table) : ℤ :=
  match t.getLast? with
  | some p => p.2.texture_count
  | none => 0

/-! ## Closed-form characterization of the filtering pipeline -/

/-- The index list `keep_indices` computed by the loop over the table
suffix starting at absolute index `k`. -/
def keptIdx (fs : List String) (ks : List MetricKey) : ℕ → Table → List ℕ
  | _, [] => []
  | k, p :: rest =>
    if hasPosB p.2 fs ks then k :: keptIdx fs ks (k + 1) rest
    else keptIdx fs ks (k + 1) rest

/-- The value the loop variable `model_data` holds after the loop has run
over the suffix `tsuf`, starting from binding `last0`. -/
def lastOf (tsuf : Table) (last0 : Option ModelRecord) : Option ModelRecord :=
  match tsuf.getLast? with
  | some p => some p.2
  | none => last0

lemma lookupRec_cons (p : String × ModelRecord) (t : Table) (name : String) :
    lookupRec (p :: t) name =
      if p.1 = name then some p.2 else lookupRec t name := by
  by_cases h : p.1 = name
  · simp [lookupRec, List.find?, h]
  · simp [lookupRec, List.find?, h]

/-- On a table whose keys are distinct, lookup of an entry's key returns
that entry's record. -/
lemma lookupRec_of_nodup : ∀ (t : Table), (t.map Prod.fst).Nodup →
    ∀ (name : String) (md : ModelRecord), (name, md) ∈ t →
    lookupRec t name = some md := by
  intro t
  induction t with
  | nil => intro _ name md hmem; simp at hmem
  | cons p rest ih =>
    intro hnd name md hmem
    rw [List.map_cons, List.nodup_cons] at hnd
    rw [lookupRec_cons]
    rcases List.mem_cons.mp hmem with heq | hmem'
    · rw [← heq]
      simp
    · have hne : p.1 ≠ name := by
        intro hcontra
        have hkey : name ∈ rest.map Prod.fst :=
          List.mem_map.mpr ⟨(name, md), hmem', rfl⟩
        exact hnd.1 (hcontra ▸ hkey)
      rw [if_neg hne]
      exact ih hnd.2 name md hmem'

/-- Distinct keys determine records uniquely. -/
lemma record_unique {t : Table} (hnd : (t.map Prod.fst).Nodup)
    {name : String} {b c : ModelRecord} (hb : (name, b) ∈ t)
    (hc : (name, c) ∈ t) : b = c := by
  have h1 := lookupRec_of_nodup t hnd name b hb
  have h2 := lookupRec_of_nodup t hnd name c hc
  rw [h1] at h2
  exact Option.some_inj.mp h2

lemma get?_of_drop {α : Type} (t : List α) (k : ℕ) (p : α) (rest : List α)
    (h : t.drop k = p :: rest) : t.get? k = some p := by
  have := List.get?_drop t k 0
  rw [h] at this
  simpa using this.symm

lemma drop_succ_of_drop {α : Type} (t : List α) (k : ℕ) (p : α)
    (rest : List α) (h : t.drop k = p :: rest) : t.drop (k + 1) = rest := by
  have h1 : (t.drop k).drop 1 = t.drop (k + 1) := by
    rw [List.drop_drop]
  rw [h] at h1
  simpa using h1.symm

lemma buildSeries_get (t : Table) (fmt : String) (key : MetricKey) (i : ℕ)
    (p : String × ModelRecord) (hp : t.get? i = some p) :
    (buildSeries t fmt key).get? i = some (match fmtLookup p.2.formats fmt with
      | some m => m.get key
      | none => none) := by
  rw [buildSeries, List.get?_map, hp]
  rfl

lemma rowHasData_cons (md : ModelRecord) (i : ℕ) (fmt : String)
    (series : List (Option ℚ)) (rest : List (String × List (Option ℚ))) :
    rowHasData md i ((fmt, series) :: rest) =
      if (fmtLookup md.formats fmt).isSome then
        match series.get? i with
        | none => none
        | some none => rowHasData md i rest
        | some (some v) => if 0 < v then some true else rowHasData md i rest
      else rowHasData md i rest := rfl

/-- Evaluating the inner loop over the block of series belonging to one
format name. -/
lemma rowHasData_block (t : Table) (i : ℕ) (p : String × ModelRecord)
    (hp : t.get? i = some p) (fmt : String) : ∀ ks : List MetricKey,
    rowHasData p.2 i (ks.map (fun k => (fmt, buildSeries t fmt k))) =
      some (match fmtLookup p.2.formats fmt with
        | some m => ks.any (fun k => match m.get k with
          | some v => decide (0 < v)
          | none => false)
        | none => false) := by
  intro ks
  induction ks with
  | nil => cases fmtLookup p.2.formats fmt <;> rfl
  | cons k ks ih =>
    rw [List.map_cons, rowHasData_cons]
    cases hf : fmtLookup p.2.formats fmt with
    | none =>
      rw [hf] at ih
      simpa [hf] using ih
    | some m =>
      have hg := buildSeries_get t fmt k i p hp
      rw [hf] at hg ih
      rw [hg]
      simp only [Option.isSome_some, if_true]
      cases hv : FormatMetrics.get m k with
      | none => simpa [List.any_cons, hv] using ih
      | some v =>
        by_cases hvp : 0 < v
        · simp [List.any_cons, hv, hvp]
        · simpa [List.any_cons, hv, hvp] using ih

/-- The inner loop short-circuits over an appended series list. -/
lemma rowHasData_append (md : ModelRecord) (i : ℕ) :
    ∀ (l1 l2 : List (String × List (Option ℚ))),
    rowHasData md i (l1 ++ l2) =
      match rowHasData md i l1 with
      | none => none
      | some true => some true
      | some false => rowHasData md i l2 := by
  intro l1
  induction l1 with
  | nil => intro l2; rfl
  | cons e rest ih =>
    intro l2
    obtain ⟨fmt, series⟩ := e
    rw [List.cons_append, rowHasData_cons, rowHasData_cons]
    by_cases hf : (fmtLookup md.formats fmt).isSome
    · rw [if_pos hf, if_pos hf]
      cases hg : series.get? i with
      | none => rfl
      | some v =>
        cases v with
        | none => exact ih l2
        | some x =>
          by_cases hx : 0 < x
          · simp [hx]
          · simpa [hx] using ih l2
    · rw [if_neg hf, if_neg hf]
      exact ih l2

lemma seriesTable_cons (t : Table) (fmt : String) (fs : List String)
    (ks : List MetricKey) :
    seriesTable t (fmt :: fs) ks =
      (ks.map (fun k => (fmt, buildSeries t fmt k))) ++ seriesTable t fs ks := by
  simp [seriesTable]

/-- The inner loop over the full cross-product series table decides exactly
the boolean keep-condition. -/
lemma rowHasData_seriesTable (t : Table) (i : ℕ) (p : String × ModelRecord)
    (hp : t.get? i = some p) : ∀ (fs : List String) (ks : List MetricKey),
    rowHasData p.2 i (seriesTable t fs ks) = some (hasPosB p.2 fs ks) := by
  intro fs
  induction fs with
  | nil => intro ks; rfl
  | cons fmt fs ih =>
    intro ks
    rw [seriesTable_cons, rowHasData_append,
      rowHasData_block t i p hp fmt ks, ih ks]
    cases hf : fmtLookup p.2.formats fmt with
    | none => simp [hasPosB, List.any_cons, hf]
    | some m =>
      by_cases hb : (ks.any (fun k => match m.get k with
        | some v => decide (0 < v)
        | none => false)) = true
      · simp [hasPosB, List.any_cons, hf, hb]
      · simp only [Bool.not_eq_true] at hb
        simp [hasPosB, List.any_cons, hf, hb]

lemma lastOf_cons (p : String × ModelRecord) (rest : Table)
    (last0 : Option ModelRecord) :
    lastOf (p :: rest) last0 = lastOf rest (some p.2) := by
  cases rest with
  | nil => rfl
  | cons q rs =>
    simp only [lastOf, List.getLast?_cons_cons]
    cases h : (q :: rs).getLast? with
    | none => exact absurd h (by simp)
    | some z => rfl

lemma keepLoop_cons (t : Table) (dbf : List (String × List (Option ℚ)))
    (i : ℕ) (name : String) (rest : List (ℕ × String))
    (last0 : Option ModelRecord) :
    keepLoop t dbf ((i, name) :: rest) last0 =
      match lookupRec t name with
      | none => none
      | some md =>
        match rowHasData md i dbf with
        | none => none
        | some b =>
          match keepLoop t dbf rest (some md) with
          | none => none
          | some (ks, last) => some (if b then i :: ks else ks, last) := rfl

/-- The main loop of `filter_models_by_nonempty`, run over a suffix of the
table's own key list, returns exactly the keep-indices of that suffix and
the suffix's last record as the leaked loop variable. -/
lemma keepLoop_drop (t : Table) (fs : List String) (ks : List MetricKey)
    (hnd : (t.map Prod.fst).Nodup) :
    ∀ (tsuf : Table) (k : ℕ) (last0 : Option ModelRecord), t.drop k = tsuf →
    keepLoop t (seriesTable t fs ks) (pyEnum k (tsuf.map Prod.fst)) last0 =
      some (keptIdx fs ks k tsuf, lastOf tsuf last0) := by
  intro tsuf
  induction tsuf with
  | nil => intro k last0 _; rfl
  | cons p rest ih =>
    intro k last0 hdrop
    have hp : t.get? k = some p := get?_of_drop t k p rest hdrop
    have hmem : p ∈ t :=
      List.drop_subset k t (hdrop ▸ List.mem_cons_self p rest)
    have hrest : t.drop (k + 1) = rest := drop_succ_of_drop t k p rest hdrop
    have hlook : lookupRec t p.1 = some p.2 :=
      lookupRec_of_nodup t hnd p.1 p.2 (by simpa using hmem)
    rw [List.map_cons, pyEnum, keepLoop_cons, hlook]
    dsimp only
    rw [rowHasData_seriesTable t k p hp fs ks]
    dsimp only
    rw [ih (k + 1) (some p.2) hrest]
    dsimp only
    rw [lastOf_cons, keptIdx]

/-- Indexing the original column lists by the keep-indices of a suffix
selects exactly that suffix's kept entries, in order. -/
lemma idxList_keptIdx {α : Type} (t : Table) (fs : List String)
    (ks : List MetricKey) (f : String × ModelRecord → α) :
    ∀ (tsuf : Table) (k : ℕ), t.drop k = tsuf →
    idxList (keptIdx fs ks k tsuf) (t.map f) =
      some ((tsuf.filter (fun p => hasPosB p.2 fs ks)).map f) := by
  intro tsuf
  induction tsuf with
  | nil => intro k _; rfl
  | cons p rest ih =>
    intro k hdrop
    have hp : t.get? k = some p := get?_of_drop t k p rest hdrop
    have hrest : t.drop (k + 1) = rest := drop_succ_of_drop t k p rest hdrop
    have hpf : (t.map f).get? k = some (f p) := by
      rw [List.get?_map, hp]
      rfl
    by_cases hq : hasPosB p.2 fs ks
    · rw [keptIdx, if_pos hq, idxList, hpf, ih (k + 1) hrest]
      simp [List.filter_cons, hq]
    · rw [keptIdx, if_neg hq, ih (k + 1) hrest]
      simp [List.filter_cons, hq]

lemma idxList_length {α : Type} :
    ∀ (is : List ℕ) (xs : List α) (ys : List α),
    idxList is xs = some ys → ys.length = is.length := by
  intro is
  induction is with
  | nil =>
    intro xs ys h
    have : some ([] : List α) = some ys := h ▸ rfl
    rw [← Option.some_inj.mp this]
    rfl
  | cons i is ih =>
    intro xs ys h
    rw [idxList] at h
    cases hx : xs.get? i with
    | none => rw [hx] at h; exact absurd h (by simp)
    | some x =>
      rw [hx] at h
      cases hrec : idxList is xs with
      | none => rw [hrec] at h; exact absurd h (by simp)
      | some zs =>
        rw [hrec] at h
        have := Option.some_inj.mp h
        rw [← this, List.length_cons, ih xs zs hrec, List.length_cons]

lemma keptIdx_length (fs : List String) (ks : List MetricKey) :
    ∀ (tsuf : Table) (k : ℕ),
    (keptIdx fs ks k tsuf).length =
      (tsuf.filter (fun p => hasPosB p.2 fs ks)).length := by
  intro tsuf
  induction tsuf with
  | nil => intro k; rfl
  | cons p rest ih =>
    intro k
    by_cases hq : hasPosB p.2 fs ks
    · rw [keptIdx, if_pos hq]
      simp [List.filter_cons, hq, ih (k + 1)]
    · rw [keptIdx, if_neg hq]
      simp [List.filter_cons, hq, ih (k + 1)]

lemma keptIdx_mem_lb (fs : List String) (ks : List MetricKey) :
    ∀ (tsuf : Table) (k i : ℕ), i ∈ keptIdx fs ks k tsuf → k ≤ i := by
  intro tsuf
  induction tsuf with
  | nil => intro k i h; simp [keptIdx] at h
  | cons p rest ih =>
    intro k i h
    by_cases hq : hasPosB p.2 fs ks
    · rw [keptIdx, if_pos hq] at h
      rcases List.mem_cons.mp h with heq | hmem
      · exact heq ▸ le_refl k
      · exact le_trans (Nat.le_succ k) (ih (k + 1) i hmem)
    · rw [keptIdx, if_neg hq] at h
      exact le_trans (Nat.le_succ k) (ih (k + 1) i h)

/-- Filtering the index range by membership in the keep-indices recovers
exactly the keep-indices. -/
lemma filter_range_keptIdx (fs : List String) (ks : List MetricKey) :
    ∀ (tsuf : Table) (k : ℕ),
    (List.range' k tsuf.length).filter
        (fun i => decide (i ∈ keptIdx fs ks k tsuf)) =
      keptIdx fs ks k tsuf := by
  intro tsuf
  induction tsuf with
  | nil => intro k; rfl
  | cons p rest ih =>
    intro k
    rw [List.length_cons, List.range'_succ k rest.length 1]
    by_cases hq : hasPosB p.2 fs ks
    · rw [keptIdx, if_pos hq, List.filter_cons]
      have hhead : k ∈ k :: keptIdx fs ks (k + 1) rest :=
        List.mem_cons_self k _
      rw [if_pos (by simpa using hhead)]
      congr 1
      have hcongr : ∀ j ∈ List.range' (k + 1) rest.length,
          decide (j ∈ k :: keptIdx fs ks (k + 1) rest) =
            decide (j ∈ keptIdx fs ks (k + 1) rest) := by
        intro j hj
        have hge : k + 1 ≤ j := (List.mem_range'_1.mp hj).1
        have hne : j ≠ k := by omega
        simp [List.mem_cons, hne]
      rw [List.filter_congr hcongr, ih (k + 1)]
    · rw [keptIdx, if_neg hq, List.filter_cons]
      have hnotmem : k ∉ keptIdx fs ks (k + 1) rest := fun hc =>
        absurd (keptIdx_mem_lb fs ks rest (k + 1) k hc) (by omega)
      rw [if_neg (by simpa using hnotmem)]
      have hcongr : ∀ j ∈ List.range' (k + 1) rest.length,
          decide (j ∈ keptIdx fs ks (k + 1) rest) =
            decide (j ∈ keptIdx fs ks (k + 1) rest) := fun j _ => rfl
      exact ih (k + 1)

/-- Evaluating the texture-count comprehension over the enumerated key
list, with the leaked loop variable holding record `r`. -/
lemma textureListGo_pyEnum (keep : List ℕ) (r : ModelRecord) :
    ∀ (names : List String) (k : ℕ),
    textureListGo keep (some r) (pyEnum k names) =
      some (((List.range' k names.length).filter
        (fun i => decide (i ∈ keep))).map (fun _ => r.texture_count)) := by
  intro names
  induction names with
  | nil => intro k; rfl
  | cons n rest ih =>
    intro k
    rw [pyEnum, textureListGo, List.length_cons,
      List.range'_succ k rest.length 1, List.filter_cons]
    by_cases hk : k ∈ keep
    · rw [if_pos hk, if_pos (by simpa using hk), ih (k + 1), List.map_cons]
      rfl
    · rw [if_neg hk, if_neg (by simpa using hk), ih (k + 1)]

/-- The texture-count comprehension evaluates to one copy of the last
record's `texture_count` per kept model. -/
lemma textureList_result (t : Table) (fs : List String) (ks : List MetricKey) :
    textureListGo (keptIdx fs ks 0 t) (lastOf t none) (pyEnum 0 (t.map Prod.fst)) =
      some ((t.filter (fun p => hasPosB p.2 fs ks)).map
        (fun _ => lastTexture t)) := by
  cases t with
  | nil => rfl
  | cons p0 rest =>
    have hne : p0 :: rest ≠ [] := List.cons_ne_nil p0 rest
    have hlast : lastOf (p0 :: rest) none =
        some ((p0 :: rest).getLast hne).2 := by
      simp [lastOf, List.getLast?_eq_getLast _ hne]
    rw [hlast, textureListGo_pyEnum, List.length_map,
      filter_range_keptIdx fs ks (p0 :: rest) 0]
    have hconst : ((p0 :: rest).getLast hne).2.texture_count =
        lastTexture (p0 :: rest) := by
      simp [lastTexture, List.getLast?_eq_getLast _ hne]
    rw [List.map_const', List.map_const', keptIdx_length fs ks (p0 :: rest) 0,
      hconst]

/-- Closed form of `selectModelsWithData` on a table with distinct model
names: the model-name and face-count columns are the kept rows' own values
in table order, while every entry of the texture-count column is the
`texture_count` of the table's **last** record — the leaked loop
variable. -/
theorem selectModelsWithData_eq (t : Table) (fs : List String)
    (ks : List MetricKey) (hnd : (t.map Prod.fst).Nodup) :
    selectModelsWithData t fs ks = some (
      (t.filter (fun p => hasPosB p.2 fs ks)).map Prod.fst,
      (t.filter (fun p => hasPosB p.2 fs ks)).map (fun p => p.2.face_count_k),
      (t.filter (fun p => hasPosB p.2 fs ks)).map (fun _ => lastTexture t)) := by
  have h1 := keepLoop_drop t fs ks hnd t 0 none (by simp)
  have h2 := idxList_keptIdx t fs ks Prod.fst t 0 (by simp)
  have h3 := idxList_keptIdx t fs ks (fun p => p.2.face_count_k) t 0 (by simp)
  have h4 := textureList_result t fs ks
  simp only [selectModelsWithData, filter_models_by_nonempty, h1, h2, h3, h4]

/-- The boolean keep-condition coincides with the spec's cross-product
condition. -/
lemma hasPosB_iff (md : ModelRecord) (fs : List String)
    (ks : List MetricKey) :
    hasPosB md fs ks = true ↔ HasPositiveCombination md fs ks := by
  simp only [hasPosB, List.any_eq_true, HasPositiveCombination]
  constructor
  · rintro ⟨fmt, hfmt, hmatch⟩
    cases hf : fmtLookup md.formats fmt with
    | none => rw [hf] at hmatch; exact absurd hmatch (by simp)
    | some m =>
      rw [hf] at hmatch
      obtain ⟨k, hk, hv⟩ := List.any_eq_true.mp hmatch
      cases hg : FormatMetrics.get m k with
      | none => rw [hg] at hv; exact absurd hv (by simp)
      | some v =>
        rw [hg] at hv
        exact ⟨fmt, hfmt, k, hk, m, hf, v, hg, of_decide_eq_true hv⟩
  · rintro ⟨fmt, hfmt, k, hk, m, hf, v, hg, hv⟩
    refine ⟨fmt, hfmt, ?_⟩
    rw [hf]
    exact List.any_eq_true.mpr ⟨k, hk, by rw [hg]; exact decide_eq_true hv⟩

/-! ## Concrete tables used to exercise the code on explicit inputs -/

/-- Metrics with only `size_before_mb` measured. -/
def fmOnlySizeBefore (v : Option ℚ) : FormatMetrics :=
  ⟨v, none, none, none, none, none⟩

/-- Metrics with only `load_memory_mb` measured. -/
def fmOnlyLoadMemory (v : Option ℚ) : FormatMetrics :=
  ⟨none, none, none, none, none, v⟩

/-- Model `A`: 1k faces, 7 textures, fbx measured at 5 MB. -/
def recA : ModelRecord := ⟨1, 7, [("fbx", fmOnlySizeBefore (some 5))]⟩

/-- Model `B`: 2k faces, 9 textures, fbx measured at 3 MB. -/
def recB : ModelRecord := ⟨2, 9, [("fbx", fmOnlySizeBefore (some 3))]⟩

/-- Two-model table where both models qualify for `fbx`/`size_before_mb`. -/
def tblAB : Table := [("A", recA), ("B", recB)]

/-- Model `M`: glTF present with `load_memory_mb` measured as exactly 0. -/
def recM : ModelRecord := ⟨1, 0, [("glTF", fmOnlyLoadMemory (some 0))]⟩

/-- One-model table carrying an explicitly measured zero. -/
def tblM : Table := [("M", recM)]

/-! ## Claim theorems: ratio computations -/

/-- C4 counterexample: at `sizeBeforeMB = 10.0`, `sizeAfterMB = 0.0` neither
of the claim's null conditions holds (`sizeBeforeMB` is neither null nor
zero and `sizeAfterMB` is not null), so the claim requires
`(1 - 0/10) * 100 = 100`; the code returns null because its guard also
rejects a zero `sizeAfterMB`. -/
theorem computeCompressionRatio_zero_after_counterexample :
    computeCompressionRatio (some 10) (some 0) = none ∧
    some (10 : ℚ) ≠ none ∧ some (10 : ℚ) ≠ some 0 ∧
    some (0 : ℚ) ≠ (none : Option ℚ) ∧
    some ((1 - (0 : ℚ) / 10) * 100) = some (100 : ℚ) := by
  refine ⟨rfl, by simp, by norm_num, by simp, by norm_num⟩

/-- C4 (amended): `computeCompressionRatio` returns null exactly when
`sizeBeforeMB` is null or zero, or `sizeAfterMB` is null or zero; in every
other case it returns `(1 - sizeAfterMB / sizeBeforeMB) * 100` exactly as
computed, negative results unclamped, so `(10, 4) ↦ 60` and
`(10, 12) ↦ -20`. -/
theorem computeCompressionRatio_amended :
    (∀ sb sa : Option ℚ, computeCompressionRatio sb sa = none ↔
      sb = none ∨ sb = some 0 ∨ sa = none ∨ sa = some 0) ∧
    (∀ b a : ℚ, b ≠ 0 → a ≠ 0 →
      computeCompressionRatio (some b) (some a) = some ((1 - a / b) * 100)) ∧
    computeCompressionRatio (some 10) (some 4) = some 60 ∧
    computeCompressionRatio (some 10) (some 12) = some (-20) := by
  refine ⟨?_, ?_, ?_, ?_⟩
  · rintro (_ | b) (_ | a) <;> simp [computeCompressionRatio] <;> try tauto
  · intro b a hb ha
    simp [computeCompressionRatio, hb, ha]
  · norm_num [computeCompressionRatio]
  · norm_num [computeCompressionRatio]

/-- C4 witness: the amended theorem applied at `(2, 5)` (a negative,
unclamped ratio) and at a null first input. -/
theorem computeCompressionRatio_amended_witness :
    computeCompressionRatio (some 2) (some 5) = some ((1 - (5 : ℚ) / 2) * 100) ∧
    computeCompressionRatio none (some 5) = none :=
  ⟨computeCompressionRatio_amended.2.1 2 5 (by norm_num) (by norm_num),
   (computeCompressionRatio_amended.1 none (some 5)).2 (Or.inl rfl)⟩

/-- C2: evaluated at the claim's own inputs, the code disagrees on the
asymmetry case: a texture size of exactly `0.0` against a positive
`sizeBeforeMB` yields null, not `0.0`, because the source guard
`texture_size not in [None, 0]` also rejects a measured zero.  The other
three cited inputs behave as claimed, and the `analyzer.py` variant
disagrees on `(0.0, 2.0)` in the opposite direction, returning `0.0`
instead of null. -/
theorem computeTextureShare_zero_texture_yields_none :
    computeTextureShare (some 10) (some 0) = none ∧
    computeTextureShare (some 10) none = none ∧
    computeTextureShare none (some 2) = none ∧
    computeTextureShare (some 0) (some 2) = none ∧
    calculate_texture_percentage 0 2 = 0 := by
  refine ⟨rfl, rfl, rfl, rfl, by simp [calculate_texture_percentage]⟩

/-! ## Claim theorems: series extraction -/

/-- C3: the `load_memory_mb` series of `create_gltf_glb_comparison`
substitutes the missing sentinel for a source value of exactly `0`: on a
table whose only model has glTF `load_memory_mb` measured as `0`, it emits
`[null]`, while the claim requires the value `0` to be emitted as `0` (as
the `size_before_mb` extraction of `create_all_format_size_before`
does). -/
theorem extractSeries_zero_becomes_null :
    (lookupRec tblM "M").bind
      (fun md => (fmtLookup md.formats "glTF").bind
        (fun m => m.load_memory_mb)) = some 0 ∧
    extractSeries_load_memory tblM ["M"] "glTF" = [none] ∧
    extractSeries tblM ["M"] "glTF" MetricKey.loadMemoryMB = [some 0] :=
  ⟨rfl, rfl, rfl⟩

/-! ## Claim theorems: log-scale heuristic -/

/-- C6: `shouldUseLogScale` discards null and non-positive values (the
elements surviving into `filterPositive` are exactly the positive
non-null source values), returns `false` when fewer than two values
survive, and otherwise returns `true` iff `max/min ≥ 100` over the
survivors; at the threshold, `[1.0, 99.0]` is `false` and `[1.0, 100.0]`
is `true`. -/
theorem should_use_log_scale_threshold :
    (∀ (values : List (Option ℚ)) (x : ℚ),
      x ∈ filterPositive values ↔ some x ∈ values ∧ 0 < x) ∧
    (∀ values : List (Option ℚ), (filterPositive values).length < 2 →
      should_use_log_scale values = false) ∧
    (∀ (values : List (Option ℚ)) (v : ℚ) (vs : List ℚ),
      filterPositive values = v :: vs → 2 ≤ (v :: vs).length →
      (should_use_log_scale values = true ↔
        100 ≤ vs.foldl max v / vs.foldl min v)) ∧
    should_use_log_scale [some 1, some 99] = false ∧
    should_use_log_scale [some 1, some 100] = true := by
  have h99 : filterPositive [some 1, some 99] = [1, 99] := by
    simp only [filterPositive, List.filterMap_cons, List.filterMap_nil]
    norm_num
  have h100 : filterPositive [some 1, some 100] = [1, 100] := by
    simp only [filterPositive, List.filterMap_cons, List.filterMap_nil]
    norm_num
  refine ⟨?_, ?_, ?_, ?_, ?_⟩
  · intro values x
    simp only [filterPositive, List.mem_filterMap]
    constructor
    · rintro ⟨a, ha, hx⟩
      match a with
      | none => exact absurd hx (by simp)
      | some y =>
        by_cases hy : 0 < y
        · simp only [hy, if_true, Option.some.injEq] at hx
          exact ⟨hx ▸ ha, hx ▸ hy⟩
        · simp [hy] at hx
    · rintro ⟨hmem, hx⟩
      exact ⟨some x, hmem, by simp [hx]⟩
  · intro values h
    unfold should_use_log_scale
    rcases hfp : filterPositive values with _ | ⟨v, _ | ⟨w, ws⟩⟩
    · rfl
    · rfl
    · rw [hfp] at h
      simp only [List.length_cons] at h
      omega
  · intro values v vs hfp hlen
    unfold should_use_log_scale
    rw [hfp]
    match vs, hlen with
    | w :: vs, _ => exact decide_eq_true_iff
  · unfold should_use_log_scale
    rw [h99]
    norm_num
  · unfold should_use_log_scale
    rw [h100]
    norm_num

/-- Every survivor of the filter step is strictly positive. -/
lemma filterPositive_mem_pos {values : List (Option ℚ)} {x : ℚ}
    (h : x ∈ filterPositive values) : 0 < x := by
  simp only [filterPositive, List.mem_filterMap] at h
  obtain ⟨a, _, hx⟩ := h
  match a with
  | none => exact absurd hx (by simp)
  | some y =>
    by_cases hy : 0 < y
    · simp only [hy, if_true, Option.some.injEq] at hx
      exact hx ▸ hy
    · simp [hy] at hx

/-- A fold of `min` over positives starting at a positive is positive. -/
lemma foldl_min_pos : ∀ (l : List ℚ) (a : ℚ), 0 < a → (∀ x ∈ l, 0 < x) →
    0 < l.foldl min a := by
  intro l
  induction l with
  | nil => intro a ha _; exact ha
  | cons b t ih =>
    intro a ha hl
    exact ih (min a b) (lt_min ha (hl b (List.mem_cons_self b t)))
      (fun x hx => hl x (List.mem_cons_of_mem b hx))

/-- Scaling every value by a positive constant commutes with the filter
step. -/
lemma filterPositive_map_mul {k : ℚ} (hk : 0 < k) :
    ∀ values : List (Option ℚ),
      filterPositive (values.map (Option.map (· * k))) =
        (filterPositive values).map (· * k) := by
  intro values
  induction values with
  | nil => rfl
  | cons a tl ih =>
    match a with
    | none =>
      simpa only [List.map_cons, filterPositive, List.filterMap_cons] using ih
    | some x =>
      by_cases hx : 0 < x
      · have hxk : 0 < x * k := mul_pos hx hk
        simp only [filterPositive] at ih ⊢
        simp [List.filterMap_cons, hx, hxk, ih]
      · have hxk : ¬0 < x * k := fun h =>
          hx ((mul_pos_iff_of_pos_right hk).mp h)
        simp only [filterPositive] at ih ⊢
        simp [List.filterMap_cons, hx, hxk, ih]

/-- Scaling by a nonnegative constant commutes with the `max` fold. -/
lemma foldl_max_map_mul {k : ℚ} (hk : 0 ≤ k) : ∀ (l : List ℚ) (a : ℚ),
    (l.map (· * k)).foldl max (a * k) = l.foldl max a * k := by
  intro l
  induction l with
  | nil => intro a; rfl
  | cons b t ih =>
    intro a
    simp only [List.map_cons, List.foldl_cons]
    rw [← max_mul_of_nonneg a b hk, ih]

/-- Scaling by a nonnegative constant commutes with the `min` fold. -/
lemma foldl_min_map_mul {k : ℚ} (hk : 0 ≤ k) : ∀ (l : List ℚ) (a : ℚ),
    (l.map (· * k)).foldl min (a * k) = l.foldl min a * k := by
  intro l
  induction l with
  | nil => intro a; rfl
  | cons b t ih =>
    intro a
    simp only [List.map_cons, List.foldl_cons]
    rw [← min_mul_of_nonneg a b hk, ih]

/-- C6 witness: the theorem applied to `[1, null]` (one survivor) and to
`[1, 200]` (ratio 200 ≥ 100). -/
theorem should_use_log_scale_threshold_witness :
    should_use_log_scale [some 1, none] = false ∧
    should_use_log_scale [some 1, some 200] = true := by
  constructor
  · exact should_use_log_scale_threshold.2.1 [some 1, none] (by decide)
  · exact (should_use_log_scale_threshold.2.2.1 [some 1, some 200] 1 [200]
      (by decide) (by decide)).2 (by norm_num)

/-- C8: `shouldUseLogScale` is scale-invariant — multiplying every value of
the input list by one strictly positive constant leaves the boolean result
unchanged. -/
theorem should_use_log_scale_scale_invariant :
    ∀ (values : List (Option ℚ)) (k : ℚ), 0 < k →
      should_use_log_scale (values.map (Option.map (· * k))) =
        should_use_log_scale values := by
  intro values k hk
  unfold should_use_log_scale
  rw [filterPositive_map_mul hk]
  rcases filterPositive values with _ | ⟨v, _ | ⟨w, vs⟩⟩
  · rfl
  · rfl
  · simp only [List.map_cons, List.foldl_cons, decide_eq_decide]
    rw [← max_mul_of_nonneg v w hk.le, ← min_mul_of_nonneg v w hk.le,
      foldl_max_map_mul hk.le, foldl_min_map_mul hk.le,
      mul_div_mul_right _ _ (ne_of_gt hk)]

/-- C8 witness: the theorem applied to `[1, 200]` scaled by `k = 2`. -/
theorem should_use_log_scale_scale_invariant_witness :
    should_use_log_scale ([some 1, some 200].map (Option.map (· * 2))) =
      should_use_log_scale [some 1, some 200] :=
  should_use_log_scale_scale_invariant [some 1, some 200] 2 (by norm_num)

/-- C10: `should_use_log_scale` is a total boolean function and its division
site is guarded: every value surviving the null/non-positive filter is
strictly positive, so whenever the filtered list is nonempty the divisor
`min` over it is strictly positive — division by zero is unreachable. -/
theorem should_use_log_scale_division_guarded :
    ∀ values : List (Option ℚ),
      (∀ x ∈ filterPositive values, 0 < x) ∧
      (∀ (v : ℚ) (vs : List ℚ), filterPositive values = v :: vs →
        0 < vs.foldl min v ∧ vs.foldl min v ≠ 0) ∧
      (should_use_log_scale values = true ∨
        should_use_log_scale values = false) := by
  intro values
  refine ⟨fun x hx => filterPositive_mem_pos hx, ?_, ?_⟩
  · intro v vs hfp
    have hv : 0 < v := filterPositive_mem_pos (hfp ▸ List.mem_cons_self v vs)
    have hvs : ∀ x ∈ vs, 0 < x := fun x hx =>
      filterPositive_mem_pos (hfp ▸ List.mem_cons_of_mem v hx)
    have hmin := foldl_min_pos vs v hv hvs
    exact ⟨hmin, ne_of_gt hmin⟩
  · cases should_use_log_scale values with
    | false => exact Or.inr rfl
    | true => exact Or.inl rfl

/-- C10 witness: the theorem applied to `[3, 5]`, whose filtered survivors
are `3` and `5` and whose `min` fold is positive. -/
theorem should_use_log_scale_division_guarded_witness :
    0 < (3 : ℚ) ∧ 0 < List.foldl min (3 : ℚ) [5] := by
  have h := should_use_log_scale_division_guarded [some 3, some 5]
  have hfp : filterPositive [some 3, some 5] = [3, 5] := by
    simp only [filterPositive, List.filterMap_cons, List.filterMap_nil]
    norm_num
  refine ⟨h.1 3 ?_, (h.2.1 3 [5] hfp).1⟩
  rw [hfp]
  exact List.mem_cons_self 3 [5]

/-! ## Claim theorems: model selection -/

/-- C1: evaluated on the two-model table where `A` (7 textures) and `B`
(9 textures, last in iteration order) are both kept, the code returns the
texture-count list `[9, 9]` — position 0 carries the last model's
`texture_count`, not kept model `A`'s value 7 — because the comprehension
building the third output reads the leftover loop variable `model_data`.
Model-name and face-count columns are aligned as claimed; the texture
column is not. -/
theorem selectModels_texture_misaligned :
    selectModelsWithData tblAB ["fbx"] [MetricKey.sizeBeforeMB] =
      some (["A", "B"], [1, 2], [9, 9]) ∧
    lookupRec tblAB "A" = some recA ∧
    recA.texture_count = 7 ∧ (9 : ℤ) ≠ 7 :=
  ⟨rfl, rfl, rfl, by decide⟩

/-- C5: on a table with distinct model names, `selectModelsWithData`
returns its lists, and a model's name appears in the kept-model list iff
some `(format, metricKey)` pair of the cross product has that format
present in the model's record with the corresponding field non-null and
strictly positive. -/
theorem selectModels_keeps_iff :
    ∀ (t : Table) (fs : List String) (ks : List MetricKey),
      (t.map Prod.fst).Nodup →
      ∀ (name : String) (md : ModelRecord), (name, md) ∈ t →
      ∃ kept faces texs,
        selectModelsWithData t fs ks = some (kept, faces, texs) ∧
        (name ∈ kept ↔ HasPositiveCombination md fs ks) := by
  intro t fs ks hnd name md hmem
  refine ⟨_, _, _, selectModelsWithData_eq t fs ks hnd, ?_⟩
  rw [← hasPosB_iff]
  constructor
  · intro h
    obtain ⟨p, hp, hpf⟩ := List.mem_map.mp h
    obtain ⟨hpt, hq⟩ := List.mem_filter.mp hp
    have hpmem : (name, p.2) ∈ t := by
      have : p = (name, p.2) := by
        rw [← hpf]
      rw [← this]
      exact hpt
    have heq : p.2 = md := record_unique hnd hpmem hmem
    rw [← heq]
    exact hq
  · intro h
    exact List.mem_map.mpr ⟨(name, md), List.mem_filter.mpr ⟨hmem, h⟩, rfl⟩

/-- C5 witness: the theorem applied to the concrete table `tblAB` at model
`A`, whose fbx `size_before_mb` is the positive 5. -/
theorem selectModels_keeps_iff_witness :
    ∃ kept faces texs,
      selectModelsWithData tblAB ["fbx"] [MetricKey.sizeBeforeMB] =
        some (kept, faces, texs) ∧
      ("A" ∈ kept ↔
        HasPositiveCombination recA ["fbx"] [MetricKey.sizeBeforeMB]) :=
  selectModels_keeps_iff tblAB ["fbx"] [MetricKey.sizeBeforeMB]
    (by simp [tblAB]) "A" recA (by simp [tblAB])

/-- C7: degenerate inputs produce empty outputs, never an error: the empty
table yields three empty lists for any formats and metric keys; on any
table with distinct model names the operation returns a value (no
`KeyError`/`IndexError`/`NameError` path is reachable), and an empty
format set or empty metric-key set disqualifies every model, yielding
three empty lists. -/
theorem selectModels_empty_safe :
    (∀ (fs : List String) (ks : List MetricKey),
      selectModelsWithData [] fs ks = some ([], [], [])) ∧
    (∀ (t : Table) (fs : List String) (ks : List MetricKey),
      (t.map Prod.fst).Nodup → (selectModelsWithData t fs ks).isSome = true) ∧
    (∀ (t : Table) (ks : List MetricKey), (t.map Prod.fst).Nodup →
      selectModelsWithData t [] ks = some ([], [], [])) ∧
    (∀ (t : Table) (fs : List String), (t.map Prod.fst).Nodup →
      selectModelsWithData t fs [] = some ([], [], [])) := by
  have hks : ∀ (md : ModelRecord) (fs : List String),
      hasPosB md fs [] = false := by
    intro md fs
    rw [hasPosB]
    rw [List.any_eq_false]
    intro fmt _
    cases fmtLookup md.formats fmt <;> simp
  refine ⟨fun fs ks => rfl, ?_, ?_, ?_⟩
  · intro t fs ks hnd
    rw [selectModelsWithData_eq t fs ks hnd]
    rfl
  · intro t ks hnd
    rw [selectModelsWithData_eq t [] ks hnd]
    have hfil : t.filter (fun p => hasPosB p.2 [] ks) = [] :=
      List.filter_eq_nil.mpr (fun p _ => by simp [hasPosB])
    rw [hfil]
    rfl
  · intro t fs hnd
    rw [selectModelsWithData_eq t fs [] hnd]
    have hfil : t.filter (fun p => hasPosB p.2 fs []) = [] :=
      List.filter_eq_nil.mpr (fun p _ => by simp [hks])
    rw [hfil]
    rfl

/-- C7 witness: the theorem applied to the empty table, to the concrete
table `tblAB`, and to a one-model table with empty format and metric-key
sets. -/
theorem selectModels_empty_safe_witness :
    selectModelsWithData [] ["fbx"] [MetricKey.sizeBeforeMB] =
      some ([], [], []) ∧
    (selectModelsWithData tblAB ["fbx"] [MetricKey.sizeBeforeMB]).isSome
      = true ∧
    selectModelsWithData [("A", recA)] [] [MetricKey.sizeBeforeMB] =
      some ([], [], []) ∧
    selectModelsWithData [("A", recA)] ["fbx"] [] = some ([], [], []) :=
  ⟨selectModels_empty_safe.1 ["fbx"] [MetricKey.sizeBeforeMB],
   selectModels_empty_safe.2.1 tblAB ["fbx"] [MetricKey.sizeBeforeMB]
     (by simp [tblAB]),
   selectModels_empty_safe.2.2.1 [("A", recA)] [MetricKey.sizeBeforeMB]
     (by simp),
   selectModels_empty_safe.2.2.2 [("A", recA)] ["fbx"] (by simp)⟩

end ModelFormats
